import Mathlib

/-!
Verification of the Fornjot B-rep kernel's triangulation containment test,
circle coordinate transforms, shape store and topology builders, against the
natural-language specification.

Conventions of the embedding:
* `f64` scalars (`Scalar`) are modelled as exact rationals `ℚ` for the
  computational geometry (polygon containment), and as reals `ℝ` for the
  trigonometric circle-coordinate functions.
* 2D points/vectors (`Point<2>`, `Vector<2>`) are pairs `ℚ × ℚ`.
* The unordered `HashSet<[Point<2>; 2]>` of boundary segments is a
  `Finset (Pt2 × Pt2)`.
-/

/-- A 2D point or vector in surface-local coordinates (`Point<2>` /
`Vector<2>` of `fj-math`, components modelled as exact rationals). -/
abbrev Pt2 : Type := ℚ × ℚ

/-- A boundary segment: an ordered pair of 2D points
(`[geometry::Point<2>; 2]` in `polygon.rs`). -/
abbrev Seg2 : Type := Pt2 × Pt2

namespace Fornjot

/-- Division of a 2D vector by the scalar two, componentwise
(`(segment[1] - segment[0]) / Scalar::TWO` in `polygon.rs`). -/
def halfVec (v : Pt2) : Pt2 := (v.1 / 2, v.2 / 2)

/-- 2D cross product (perp-dot), the determinant `u.x * v.y - u.y * v.x`. -/
def cross2 (u v : Pt2) : ℚ := u.1 * v.2 - u.2 * v.1

/-- Modelled from the spec: the ray/segment intersection performed by the
external `parry2d` library (`Segment::cast_local_ray` with `max_toi = ∞`,
`solid = true`), which is not part of this repository.  It returns the
parameter `t ≥ 0` of the first point `origin + t · dir` of the ray that lies
on the segment, and `None` when the ray misses the segment.  Per the spec's
error-handling design, "floating-point edge cases (NaN, ray parallel to a
segment) must be treated as no intersection", so a ray parallel to the
segment (zero determinant, which also covers a zero direction) yields
`none`. -/
def castRay (origin dir : Pt2) (s : Seg2) : Option ℚ :=
  let r := s.2 - s.1
  let den := cross2 dir r
  if den = 0 then none
  else
    let t := cross2 (s.1 - origin) r / den
    let u := cross2 (s.1 - origin) dir / den
    if 0 ≤ t ∧ 0 ≤ u ∧ u ≤ 1 then some t else none

/-- Rounding of an intersection parameter before it is recorded:
`let eps = 1_000_000.0; let t = (t * eps).round() / eps;` in
`Polygon::contains_triangle`. -/
def roundParam (t : ℚ) : ℚ := round (t * 1000000) / 1000000

/-- The debug record pushed for one ray-cast triangle-edge check
(`TriangleEdgeCheck` of `fj_debug`).  The source stores the ray re-embedded
into 3D model space through the face's `Surface`; the `Surface` type is not
part of the sources and the spec calls the debug sink "purely diagnostic,
not behavior-affecting", so the check records the 2D ray here.  `hits` is
the set of deduplicated rounded hit parameters (the source pushes each
parameter exactly when its insertion into the `BTreeSet` is new, so the
collection of recorded hits is exactly this set). -/
structure TriangleEdgeCheck where
  ray : Pt2 × Pt2
  hits : Finset ℚ
  deriving DecidableEq

/-- The debug sink (`DebugInfo` of `fj_debug`): the list of triangle-edge
checks pushed so far. -/
structure DebugInfo where
  triangle_edge_checks : List TriangleEdgeCheck
  deriving DecidableEq

/-- The face polygon (`Polygon` in `polygon.rs`): the set of boundary
segments of the exterior cycle and all interior cycles, in surface-local
2D coordinates.  The `surface` field of the source struct is used only to
re-embed debug rays into 3D and is omitted (the `Surface` type is not in
the sources). -/
structure Polygon where
  segments : Finset Seg2

/-- `Polygon::contains_segment`: a segment is contained iff it occurs among
the stored boundary segments in either orientation. -/
def Polygon.contains_segment (poly : Polygon) (s : Seg2) : Bool :=
  decide ((s.1, s.2) ∈ poly.segments) || decide ((s.2, s.1) ∈ poly.segments)

/-- The set of deduplicated rounded hit parameters collected by the inner
loop of `Polygon::contains_triangle`: for every boundary segment, cast the
ray against it; round the parameter of each hit and insert it into the set
(the `BTreeSet` named `hits` in the source). -/
def hitSet (poly : Polygon) (origin dir : Pt2) : Finset ℚ :=
  poly.segments.biUnion fun s =>
    (castRay origin dir s).elim ∅ fun t => {roundParam t}

/-- The midpoint of a triangle edge:
`segment[0] + (segment[1] - segment[0]) / Scalar::TWO`. -/
def segCenter (s : Seg2) : Pt2 := s.1 + halfVec (s.2 - s.1)

/-- The `TriangleEdgeCheck` recorded for one non-boundary triangle edge: the
ray from the edge's midpoint toward the outside point, with its deduplicated
rounded hit parameters. -/
def mkCheck (poly : Polygon) (outside : Pt2) (s : Seg2) : TriangleEdgeCheck :=
  let origin := segCenter s
  let dir := outside - origin
  { ray := (origin, dir), hits := hitSet poly origin dir }

/-- The loop of `Polygon::contains_triangle` over the triangle's edges:
skip an edge that matches a stored boundary segment; otherwise cast the
midpoint ray, push the debug check, and return `false` immediately when the
number of distinct rounded hits is even. -/
def containsLoop (poly : Polygon) (outside : Pt2) :
    List Seg2 → DebugInfo → Bool × DebugInfo
  | [], dbg => (true, dbg)
  | s :: rest, dbg =>
    if poly.contains_segment s then
      containsLoop poly outside rest dbg
    else
      let check := mkCheck poly outside s
      let dbg := DebugInfo.mk (dbg.triangle_edge_checks ++ [check])
      if check.hits.card % 2 = 0 then
        (false, dbg)
      else
        containsLoop poly outside rest dbg

/-- The edges of the candidate triangle `[a, b, c]`, as iterated by
`[a, b, c, a].windows(2)`. -/
def triEdges (a b c : Pt2) : List Seg2 := [(a, b), (b, c), (c, a)]

/-- `Polygon::contains_triangle`: accept the triangle `[a, b, c]` iff no
edge's midpoint fails the ray-casting parity test, pushing one debug check
per ray-cast edge. -/
def Polygon.contains_triangle (poly : Polygon) (a b c : Pt2)
    (outside : Pt2) (dbg : DebugInfo) : Bool × DebugInfo :=
  containsLoop poly outside (triEdges a b c) dbg

/-- The acceptance predicate for one triangle edge: it matches a stored
boundary segment, or the ray from its midpoint toward the outside point has
an odd number of distinct rounded hit parameters. -/
def edgeOk (poly : Polygon) (outside : Pt2) (s : Seg2) : Prop :=
  poly.contains_segment s = true ∨
    ¬ (hitSet poly (segCenter s) (outside - segCenter s)).card % 2 = 0

instance (poly : Polygon) (outside : Pt2) (s : Seg2) :
    Decidable (edgeOk poly outside s) := by
  unfold edgeOk; infer_instance

/-- The list of debug checks pushed when a list of edges is processed to the
end without a failure: one check per non-boundary edge. -/
def checksFor (poly : Polygon) (outside : Pt2) (es : List Seg2) :
    List TriangleEdgeCheck :=
  es.filterMap fun s =>
    if poly.contains_segment s then none else some (mkCheck poly outside s)

/-! ## The shape store and the topology builders

`VertexBuilder` and `EdgeBuilder` are translated from
`fj-kernel/src/topology/builder.rs`.  The `Shape` store itself
(`fj-kernel/src/shape`) is not among the sources, so it is modelled from the
spec: a deduplicating, validating collection per entity type, addressed by
stable handles; a handle is an index into the per-type collection. -/

/-- A 3D model-space point (`Point<3>`), components as exact rationals. -/
abbrev Pt3 : Type := ℚ × ℚ × ℚ

/-- A vertex (`Vertex` of `fj-kernel`): a handle to a `Point<3>`. -/
structure KVertex where
  point : ℕ
  deriving DecidableEq

/-- The kernel's circle curve, as constructed by `EdgeBuilder::circle`:
`Circle { center: Point::origin(), radius: Vector::from([radius, Scalar::ZERO]) }`.
The `geometry::Circle` declaration itself is not among the sources; modelled
from the spec and from the construction in `builder.rs`: a center point and
a radius vector. -/
structure KCircle where
  center : Pt3
  radius : Pt2
  deriving DecidableEq

/-- Modelled from the spec: the kernel's line curve, a "two-point …
representation of an infinite line" (the `Line` declaration is not among
the sources). -/
structure KLine where
  p0 : Pt3
  p1 : Pt3
  deriving DecidableEq

/-- A curve (`Curve` of `fj-kernel`): a tagged union over circle and line. -/
inductive KCurve where
  | circle (c : KCircle)
  | line (l : KLine)
  deriving DecidableEq

/-- An edge (`Edge` of `fj-kernel`): a handle to a curve plus an optional
pair of vertex handles (absent for a closed curve used whole). -/
structure KEdge where
  curve : ℕ
  vertices : Option (ℕ × ℕ)
  deriving DecidableEq

/-- The validation-error taxonomy of the spec: `Structural` (a referenced
handle does not resolve in the store) and `Geometric` (an object-specific
consistency predicate fails). -/
inductive ValidationError where
  | structural
  | geometric
  deriving DecidableEq

instance {ε α : Type} [DecidableEq ε] [DecidableEq α] :
    DecidableEq (Except ε α)
  | .error a, .error b =>
    if h : a = b then .isTrue (by rw [h])
    else .isFalse (by intro hh; cases hh; exact h rfl)
  | .error _, .ok _ => .isFalse (by intro h; cases h)
  | .ok _, .error _ => .isFalse (by intro h; cases h)
  | .ok a, .ok b =>
    if h : a = b then .isTrue (by rw [h])
    else .isFalse (by intro hh; cases hh; exact h rfl)

/-- Modelled from the spec: the `Shape` store — one deduplicated collection
per entity type, a `Handle<T>` being an index into the collection for `T`.
A handle resolves iff it is smaller than the length of its collection. -/
structure Shape where
  points : List Pt3
  curves : List KCurve
  vertices : List KVertex
  edges : List KEdge
  deriving DecidableEq

/-- The empty shape store. -/
def Shape.empty : Shape := ⟨[], [], [], []⟩

/-- Index of the first occurrence of `x`, if any. -/
def idxOf? [DecidableEq α] : List α → α → Option ℕ
  | [], _ => none
  | y :: ys, x => if y = x then some 0 else (idxOf? ys x).map (· + 1)

/-- Modelled from the spec: the store's per-collection
`get_handle_or_insert` — "returns the existing handle if an equal object is
already present, else inserts and returns a fresh handle". -/
def listGHI [DecidableEq α] (xs : List α) (x : α) : List α × ℕ :=
  match idxOf? xs x with
  | some i => (xs, i)
  | none => (xs ++ [x], xs.length)

/-- Modelled from the spec: inserting a `Point<3>`.  A point references no
other object, so structural validation always succeeds; per the spec the
store "never stores duplicates", so a value-equal stored point is reused. -/
def Shape.getHandleOrInsertPoint (s : Shape) (p : Pt3) :
    Except ValidationError (Shape × ℕ) :=
  .ok ({ s with points := (listGHI s.points p).1 }, (listGHI s.points p).2)

/-- Modelled from the spec: inserting a `Vertex`.  Structural validation
requires the referenced point handle to resolve in this store. -/
def Shape.getHandleOrInsertVertex (s : Shape) (v : KVertex) :
    Except ValidationError (Shape × ℕ) :=
  if v.point < s.points.length then
    .ok ({ s with vertices := (listGHI s.vertices v).1 },
      (listGHI s.vertices v).2)
  else
    .error .structural

/-- Modelled from the spec: inserting a `Curve`.  A curve owns no topology
and references no other object, so structural validation always
succeeds. -/
def Shape.insertCurve (s : Shape) (c : KCurve) :
    Except ValidationError (Shape × ℕ) :=
  .ok ({ s with curves := (listGHI s.curves c).1 }, (listGHI s.curves c).2)

/-- Whether the optional vertex-handle pair of an edge resolves inside the
store. -/
def Shape.verticesResolve (s : Shape) : Option (ℕ × ℕ) → Prop
  | none => True
  | some (v1, v2) => v1 < s.vertices.length ∧ v2 < s.vertices.length

instance (s : Shape) : (ov : Option (ℕ × ℕ)) →
    Decidable (s.verticesResolve ov)
  | none => .isTrue trivial
  | some (_, _) => inferInstanceAs (Decidable (_ ∧ _))

/-- Modelled from the spec: inserting an `Edge`.  Structural validation
requires the curve handle and both vertex handles (when present) to resolve
in this store; a violation fails with a `Structural` error.  (The spec's
geometric predicate — edge vertices on the curve within tolerance — is a
floating-point tolerance check and is not modelled; the claims under test
concern structural validation.) -/
def Shape.insertEdge (s : Shape) (e : KEdge) :
    Except ValidationError (Shape × ℕ) :=
  if e.curve < s.curves.length ∧ s.verticesResolve e.vertices then
    .ok ({ s with edges := (listGHI s.edges e).1 }, (listGHI s.edges e).2)
  else
    .error .structural

/-- `VertexBuilder::from_point`: insert (or reuse) the `Point<3>`, then
insert (or reuse) the `Vertex` wrapping it (`builder.rs`). -/
def VertexBuilder.from_point (s : Shape) (p : Pt3) :
    Except ValidationError (Shape × ℕ) :=
  match s.getHandleOrInsertPoint p with
  | .error err => .error err
  | .ok (s, hp) =>
    match s.getHandleOrInsertVertex ⟨hp⟩ with
    | .error err => .error err
    | .ok (s, hv) => .ok (s, hv)

/-- `EdgeBuilder::circle`: insert a `Curve::Circle` centered at the origin
with radius vector `[radius, 0]`, then insert an `Edge` with that curve and
no vertices (`builder.rs`). -/
def EdgeBuilder.circle (s : Shape) (radius : ℚ) :
    Except ValidationError (Shape × ℕ) :=
  match s.insertCurve (.circle ⟨(0, 0, 0), (radius, 0)⟩) with
  | .error err => .error err
  | .ok (s, hc) =>
    match s.insertEdge ⟨hc, none⟩ with
    | .error err => .error err
    | .ok (s, he) => .ok (s, he)

/-! ## Circle coordinate transforms (`fj-math/src/circle.rs`)

`Scalar` is modelled as `ℝ`; a `D`-dimensional point or vector is a
function `Fin D → ℝ`.  `Scalar::atan2` wraps the external `f64::atan2` and
is modelled as the argument of the complex number `x + y·i`, with range
`(-π, π]`. -/

/-- A `D`-dimensional point or vector of reals. -/
abbrev PtR (D : ℕ) : Type := Fin D → ℝ

/-- The euclidean dot product of two `D`-dimensional vectors. -/
def dotR {D : ℕ} (x y : PtR D) : ℝ := ∑ i, x i * y i

/-- `Circle<D>` of `fj-math`: a center and two vectors `a`, `b` defining
the circle's radius and plane.  (`|a| = |b|` and `a ⟂ b` are invariants
stated by the spec, not enforced by the type.) -/
structure CircleR (D : ℕ) where
  center : PtR D
  a : PtR D
  b : PtR D

/-- Modelled from the spec: `Scalar::atan2` (the external `f64::atan2`),
as the argument of `x + y·i`, with range `(-π, π]`. -/
noncomputable def atan2 (y x : ℝ) : ℝ := Complex.arg (x + y * Complex.I)

/-- `Circle::point_to_circle_coords`: the `atan2` of the point's projection
onto the `(a, b)` basis, brought into `[0, 2π)` by adding `2π` to a
negative result.  The projection step is modelled from the spec ("computes
`atan2` of the point's projection onto the `(a,b)` basis"): the source
writes `(point - self.center).to_uv()`, and `Vector::to_uv` is not among
the sources. -/
noncomputable def CircleR.point_to_circle_coords {D : ℕ} (c : CircleR D)
    (p : PtR D) : ℝ :=
  let v : PtR D := fun i => p i - c.center i
  let u := dotR v c.a / dotR c.a c.a
  let w := dotR v c.b / dotR c.b c.b
  let atan := atan2 w u
  if 0 ≤ atan then atan else atan + Real.pi * 2

/-- `Circle::vector_from_circle_coords`: `a · cos θ + b · sin θ`. -/
noncomputable def CircleR.vector_from_circle_coords {D : ℕ} (c : CircleR D)
    (angle : ℝ) : PtR D :=
  fun i => c.a i * Real.cos angle + c.b i * Real.sin angle

/-- `Circle::point_from_circle_coords`:
`center + vector_from_circle_coords θ`. -/
noncomputable def CircleR.point_from_circle_coords {D : ℕ} (c : CircleR D)
    (angle : ℝ) : PtR D :=
  fun i => c.center i + c.vector_from_circle_coords angle i

/-! ## Concrete instances used to exercise the definitions -/

/-- The boundary of the unit square, as a face polygon. -/
def sqPoly : Polygon :=
  ⟨([((0, 0), (1, 0)), ((1, 0), (1, 1)), ((1, 1), (0, 1)),
     ((0, 1), (0, 0))] : List Seg2).toFinset⟩

/-- The boundary of a single triangle, as a face polygon. -/
def triPoly : Polygon :=
  ⟨([((0, 0), (1, 0)), ((1, 0), (0, 1)), ((0, 1), (0, 0))] :
     List Seg2).toFinset⟩

/-- A square face `[0,3] × [0,3]` with a centered square hole
`[1,2] × [1,2]`: the multiply-connected polygon of the spec's annulus
scenario. -/
def annulusPoly : Polygon :=
  ⟨([((0, 0), (3, 0)), ((3, 0), (3, 3)), ((3, 3), (0, 3)),
     ((0, 3), (0, 0)),
     ((1, 1), (2, 1)), ((2, 1), (2, 2)), ((2, 2), (1, 2)),
     ((1, 2), (1, 1))] : List Seg2).toFinset⟩

/-- Membership in the bounding box `[0,3] × [0,3]` of `annulusPoly`; a
point outside this box is genuinely outside the face's bounding region. -/
def inBox3 (p : Pt2) : Prop := 0 ≤ p.1 ∧ p.1 ≤ 3 ∧ 0 ≤ p.2 ∧ p.2 ≤ 3

instance (p : Pt2) : Decidable (inBox3 p) := by
  unfold inBox3; infer_instance

end Fornjot

/-! ## Lemmas about the containment loop -/

namespace Fornjot

theorem contains_segment_swap (poly : Polygon) (p q : Pt2) :
    poly.contains_segment (p, q) = poly.contains_segment (q, p) := by
  simp [Polygon.contains_segment, Bool.or_comm]

theorem segCenter_swap (p q : Pt2) : segCenter (p, q) = segCenter (q, p) := by
  unfold segCenter halfVec
  simp only [Prod.ext_iff, Prod.fst_add, Prod.snd_add, Prod.fst_sub,
    Prod.snd_sub]
  constructor <;> ring

theorem mkCheck_hits (poly : Polygon) (outside : Pt2) (s : Seg2) :
    (mkCheck poly outside s).hits =
      hitSet poly (segCenter s) (outside - segCenter s) := rfl

theorem edgeOk_swap (poly : Polygon) (outside : Pt2) (p q : Pt2) :
    edgeOk poly outside (p, q) ↔ edgeOk poly outside (q, p) := by
  unfold edgeOk
  rw [contains_segment_swap, segCenter_swap]

theorem containsLoop_nil (poly : Polygon) (outside : Pt2) (dbg : DebugInfo) :
    containsLoop poly outside [] dbg = (true, dbg) := rfl

theorem containsLoop_cons_skip (poly : Polygon) (outside : Pt2) (s : Seg2)
    (rest : List Seg2) (dbg : DebugInfo)
    (h : poly.contains_segment s = true) :
    containsLoop poly outside (s :: rest) dbg =
      containsLoop poly outside rest dbg := by
  simp [containsLoop, h]

theorem containsLoop_cons_even (poly : Polygon) (outside : Pt2) (s : Seg2)
    (rest : List Seg2) (dbg : DebugInfo)
    (h : ¬ poly.contains_segment s = true)
    (he : (mkCheck poly outside s).hits.card % 2 = 0) :
    containsLoop poly outside (s :: rest) dbg =
      (false,
        ⟨dbg.triangle_edge_checks ++ [mkCheck poly outside s]⟩) := by
  simp [containsLoop, h, he]

theorem containsLoop_cons_odd (poly : Polygon) (outside : Pt2) (s : Seg2)
    (rest : List Seg2) (dbg : DebugInfo)
    (h : ¬ poly.contains_segment s = true)
    (he : ¬ (mkCheck poly outside s).hits.card % 2 = 0) :
    containsLoop poly outside (s :: rest) dbg =
      containsLoop poly outside rest
        ⟨dbg.triangle_edge_checks ++ [mkCheck poly outside s]⟩ := by
  simp [containsLoop, h, he]

theorem containsLoop_true_iff (poly : Polygon) (outside : Pt2) :
    ∀ (es : List Seg2) (dbg : DebugInfo),
      (containsLoop poly outside es dbg).1 = true ↔
        ∀ e ∈ es, edgeOk poly outside e := by
  intro es
  induction es with
  | nil => intro dbg; simp [containsLoop_nil]
  | cons s rest ih =>
    intro dbg
    by_cases hs : poly.contains_segment s = true
    · rw [containsLoop_cons_skip poly outside s rest dbg hs]
      simp only [List.mem_cons, forall_eq_or_imp, ih]
      have hok : edgeOk poly outside s := Or.inl hs
      exact ⟨fun h => ⟨hok, h⟩, fun h => h.2⟩
    · by_cases he : (mkCheck poly outside s).hits.card % 2 = 0
      · rw [containsLoop_cons_even poly outside s rest dbg hs he]
        have hno : ¬ edgeOk poly outside s := by
          unfold edgeOk
          rw [← mkCheck_hits]
          push_neg
          exact ⟨hs, he⟩
        simp only [List.mem_cons, forall_eq_or_imp]
        constructor
        · intro h; exact absurd h (by simp)
        · intro h; exact absurd h.1 hno
      · rw [containsLoop_cons_odd poly outside s rest dbg hs he]
        have hok : edgeOk poly outside s := by
          unfold edgeOk
          rw [← mkCheck_hits]
          exact Or.inr he
        simp only [List.mem_cons, forall_eq_or_imp, ih]
        exact ⟨fun h => ⟨hok, h⟩, fun h => h.2⟩

theorem checksFor_nil (poly : Polygon) (outside : Pt2) :
    checksFor poly outside [] = [] := rfl

theorem checksFor_cons_skip (poly : Polygon) (outside : Pt2) (s : Seg2)
    (rest : List Seg2) (h : poly.contains_segment s = true) :
    checksFor poly outside (s :: rest) = checksFor poly outside rest := by
  simp [checksFor, h]

theorem checksFor_cons_cast (poly : Polygon) (outside : Pt2) (s : Seg2)
    (rest : List Seg2) (h : ¬ poly.contains_segment s = true) :
    checksFor poly outside (s :: rest) =
      mkCheck poly outside s :: checksFor poly outside rest := by
  simp [checksFor, h]

theorem containsLoop_all_ok (poly : Polygon) (outside : Pt2) :
    ∀ (es : List Seg2) (dbg : DebugInfo),
      (∀ e ∈ es, edgeOk poly outside e) →
      containsLoop poly outside es dbg =
        (true, ⟨dbg.triangle_edge_checks ++ checksFor poly outside es⟩) := by
  intro es
  induction es with
  | nil => intro dbg _; simp [containsLoop_nil, checksFor_nil]
  | cons s rest ih =>
    intro dbg hall
    have hs := hall s (List.mem_cons_self s rest)
    have hrest : ∀ e ∈ rest, edgeOk poly outside e := fun e he =>
      hall e (List.mem_cons_of_mem s he)
    by_cases hc : poly.contains_segment s = true
    · rw [containsLoop_cons_skip poly outside s rest dbg hc,
        checksFor_cons_skip poly outside s rest hc]
      exact ih dbg hrest
    · have he : ¬ (mkCheck poly outside s).hits.card % 2 = 0 := by
        rcases hs with hs | hs
        · exact absurd hs hc
        · rw [mkCheck_hits]; exact hs
      rw [containsLoop_cons_odd poly outside s rest dbg hc he,
        checksFor_cons_cast poly outside s rest hc,
        ih ⟨dbg.triangle_edge_checks ++ [mkCheck poly outside s]⟩ hrest]
      simp

theorem containsLoop_fail (poly : Polygon) (outside : Pt2) :
    ∀ (pre : List Seg2) (e : Seg2) (post : List Seg2) (dbg : DebugInfo),
      (∀ e' ∈ pre, edgeOk poly outside e') →
      ¬ poly.contains_segment e = true →
      (hitSet poly (segCenter e) (outside - segCenter e)).card % 2 = 0 →
      containsLoop poly outside (pre ++ e :: post) dbg =
        (false,
          ⟨dbg.triangle_edge_checks ++ checksFor poly outside pre ++
            [mkCheck poly outside e]⟩) := by
  intro pre
  induction pre with
  | nil =>
    intro e post dbg _ hc he
    rw [← mkCheck_hits] at he
    simp only [List.nil_append]
    rw [containsLoop_cons_even poly outside e post dbg hc he]
    simp [checksFor_nil]
  | cons s rest ih =>
    intro e post dbg hall hc he
    have hs := hall s (List.mem_cons_self s rest)
    have hrest : ∀ e' ∈ rest, edgeOk poly outside e' := fun e' he' =>
      hall e' (List.mem_cons_of_mem s he')
    by_cases hcs : poly.contains_segment s = true
    · rw [List.cons_append,
        containsLoop_cons_skip poly outside s (rest ++ e :: post) dbg hcs,
        checksFor_cons_skip poly outside s rest hcs]
      exact ih e post dbg hrest hc he
    · have hodd : ¬ (mkCheck poly outside s).hits.card % 2 = 0 := by
        rcases hs with hs | hs
        · exact absurd hs hcs
        · rw [mkCheck_hits]; exact hs
      rw [List.cons_append,
        containsLoop_cons_odd poly outside s (rest ++ e :: post) dbg hcs hodd,
        checksFor_cons_cast poly outside s rest hcs,
        ih e post ⟨dbg.triangle_edge_checks ++ [mkCheck poly outside s]⟩
          hrest hc he]
      simp

theorem containsLoop_skip_middle (poly : Polygon) (outside : Pt2) :
    ∀ (pre : List Seg2) (e : Seg2) (post : List Seg2) (dbg : DebugInfo),
      poly.contains_segment e = true →
      containsLoop poly outside (pre ++ e :: post) dbg =
        containsLoop poly outside (pre ++ post) dbg := by
  intro pre
  induction pre with
  | nil =>
    intro e post dbg hc
    simp only [List.nil_append]
    exact containsLoop_cons_skip poly outside e post dbg hc
  | cons s rest ih =>
    intro e post dbg hc
    by_cases hcs : poly.contains_segment s = true
    · rw [List.cons_append,
        containsLoop_cons_skip poly outside s (rest ++ e :: post) dbg hcs,
        List.cons_append,
        containsLoop_cons_skip poly outside s (rest ++ post) dbg hcs]
      exact ih e post dbg hc
    · by_cases he : (mkCheck poly outside s).hits.card % 2 = 0
      · rw [List.cons_append,
          containsLoop_cons_even poly outside s (rest ++ e :: post) dbg hcs he,
          List.cons_append,
          containsLoop_cons_even poly outside s (rest ++ post) dbg hcs he]
      · rw [List.cons_append,
          containsLoop_cons_odd poly outside s (rest ++ e :: post) dbg hcs he,
          List.cons_append,
          containsLoop_cons_odd poly outside s (rest ++ post) dbg hcs he]
        exact ih e post _ hc

theorem containsLoop_checks_mem (poly : Polygon) (outside : Pt2) :
    ∀ (es : List Seg2) (dbg : DebugInfo) (ch : TriangleEdgeCheck),
      ch ∈ (containsLoop poly outside es dbg).2.triangle_edge_checks →
      ch ∈ dbg.triangle_edge_checks ∨ ∃ e, ch = mkCheck poly outside e := by
  intro es
  induction es with
  | nil => intro dbg ch h; exact Or.inl h
  | cons s rest ih =>
    intro dbg ch h
    by_cases hcs : poly.contains_segment s = true
    · rw [containsLoop_cons_skip poly outside s rest dbg hcs] at h
      exact ih dbg ch h
    · by_cases he : (mkCheck poly outside s).hits.card % 2 = 0
      · rw [containsLoop_cons_even poly outside s rest dbg hcs he] at h
        simp only [List.mem_append, List.mem_singleton] at h
        rcases h with h | h
        · exact Or.inl h
        · exact Or.inr ⟨s, h⟩
      · rw [containsLoop_cons_odd poly outside s rest dbg hcs he] at h
        rcases ih _ ch h with h' | h'
        · simp only [List.mem_append, List.mem_singleton] at h'
          rcases h' with h' | h'
          · exact Or.inl h'
          · exact Or.inr ⟨s, h'⟩
        · exact Or.inr h'

theorem hitSet_eq_image (poly : Polygon) (origin dir : Pt2) :
    hitSet poly origin dir =
      (poly.segments.filter fun s => (castRay origin dir s).isSome).image
        fun s => roundParam ((castRay origin dir s).getD 0) := by
  ext t
  simp only [hitSet, Finset.mem_biUnion, Finset.mem_image, Finset.mem_filter]
  constructor
  · rintro ⟨s, hs, ht⟩
    cases h : castRay origin dir s with
    | none => rw [h] at ht; simp at ht
    | some u =>
      rw [h] at ht
      simp only [Option.elim_some, Finset.mem_singleton] at ht
      exact ⟨s, ⟨hs, by rw [h]; rfl⟩, by rw [h, ht]; rfl⟩
  · rintro ⟨s, ⟨hs, hsome⟩, ht⟩
    refine ⟨s, hs, ?_⟩
    cases h : castRay origin dir s with
    | none => rw [h] at hsome; simp at hsome
    | some u =>
      rw [h] at ht
      simp only [Option.elim_some, Finset.mem_singleton]
      rw [← ht]
      rfl

theorem contains_triangle_fst_iff (poly : Polygon) (a b c outside : Pt2)
    (dbg : DebugInfo) :
    (poly.contains_triangle a b c outside dbg).1 = true ↔
      (edgeOk poly outside (a, b) ∧ edgeOk poly outside (b, c) ∧
        edgeOk poly outside (c, a)) := by
  unfold Polygon.contains_triangle triEdges
  rw [containsLoop_true_iff]
  simp

end Fornjot

/-! ## The claims about `Polygon::contains_triangle` -/

namespace Fornjot

section ConcreteEvaluation

attribute [local semireducible] Rat.add Rat.mul Rat.sub Rat.inv

/-- C1: `Polygon::contains_triangle` returns `true` if and only if each of
the triangle's three edges either matches a stored boundary segment or has
a midpoint whose ray-cast toward the outside point yields an odd number of
distinct (rounded) hit parameters; and as soon as one edge's midpoint has
an even count — all edges before it passing — the function returns `false`
without examining the remaining edges: the debug sink shows checks only for
the ray-cast edges up to and including the failing one. -/
theorem contains_triangle_parity_spec (poly : Polygon) (a b c outside : Pt2)
    (dbg : DebugInfo) :
    ((poly.contains_triangle a b c outside dbg).1 = true ↔
      ∀ e ∈ triEdges a b c, poly.contains_segment e = true ∨
        ¬ (hitSet poly (segCenter e) (outside - segCenter e)).card % 2 = 0)
    ∧
    (∀ (pre : List Seg2) (e : Seg2) (post : List Seg2),
      triEdges a b c = pre ++ e :: post →
      (∀ e' ∈ pre, edgeOk poly outside e') →
      poly.contains_segment e = false →
      (hitSet poly (segCenter e) (outside - segCenter e)).card % 2 = 0 →
      poly.contains_triangle a b c outside dbg =
        (false, ⟨dbg.triangle_edge_checks ++ checksFor poly outside pre ++
          [mkCheck poly outside e]⟩)) := by
  constructor
  · unfold Polygon.contains_triangle
    rw [containsLoop_true_iff]
    exact Iff.rfl
  · intro pre e post hsplit hpre hcs heven
    unfold Polygon.contains_triangle
    rw [hsplit]
    exact containsLoop_fail poly outside pre e post dbg hpre
      (by simp [hcs]) heven

/-- Concrete run of C1's short-circuit clause: the first edge of the
triangle `[(5,0), (7,0), (6,1)]` misses `sqPoly` entirely (zero hits, an
even count), so the triangle is rejected with a single debug check. -/
theorem contains_triangle_parity_spec_witness :
    sqPoly.contains_segment ((5, 0), (7, 0)) = false ∧
    (hitSet sqPoly (segCenter ((5, 0), (7, 0)))
      ((10, 0) - segCenter ((5, 0), (7, 0)))).card % 2 = 0 ∧
    sqPoly.contains_triangle (5, 0) (7, 0) (6, 1) (10, 0) ⟨[]⟩ =
      (false, ⟨[mkCheck sqPoly (10, 0) ((5, 0), (7, 0))]⟩) :=
  ⟨by decide, by decide, by
    have h := (contains_triangle_parity_spec sqPoly (5, 0) (7, 0) (6, 1)
        (10, 0) ⟨[]⟩).2 [] ((5, 0), (7, 0))
        [((7, 0), (6, 1)), ((6, 1), (5, 0))] rfl (by simp) (by decide)
        (by decide)
    simpa [checksFor_nil] using h⟩

/-- C2: every hit set a `contains_triangle` call records in a debug check
is obtained by casting that check's ray against every stored boundary
segment, rounding each intersection parameter to six decimal digits
(multiply by 1,000,000, round, divide back), and deduplicating the rounded
parameters (a `Finset.image`): boundary segments hit at the same rounded
parameter contribute a single element to the set whose cardinality drives
the parity count. -/
theorem contains_triangle_rounds_and_dedups (poly : Polygon)
    (a b c outside : Pt2) (ch : TriangleEdgeCheck)
    (hch : ch ∈
      ((poly.contains_triangle a b c outside ⟨[]⟩).2).triangle_edge_checks) :
    ch.hits =
      (poly.segments.filter
          fun s => (castRay ch.ray.1 ch.ray.2 s).isSome).image
        fun s =>
          (round ((castRay ch.ray.1 ch.ray.2 s).getD 0 * 1000000) : ℚ) /
            1000000 := by
  rcases containsLoop_checks_mem poly outside (triEdges a b c) ⟨[]⟩ ch hch
    with h | ⟨e, rfl⟩
  · simp at h
  · show (mkCheck poly outside e).hits = _
    rw [mkCheck_hits, hitSet_eq_image]
    rfl

/-- Concrete run of C2: the first edge of an interior triangle of the unit
square is ray-cast, and its recorded hit set is the deduplicated rounded
image. -/
theorem contains_triangle_rounds_and_dedups_witness :
    mkCheck sqPoly (2, 2) ((1/4, 1/4), (3/4, 1/4)) ∈
      ((sqPoly.contains_triangle (1/4, 1/4) (3/4, 1/4) (1/2, 3/4) (2, 2)
        ⟨[]⟩).2).triangle_edge_checks ∧
    (mkCheck sqPoly (2, 2) ((1/4, 1/4), (3/4, 1/4))).hits =
      (sqPoly.segments.filter
          fun s => (castRay (mkCheck sqPoly (2, 2)
            ((1/4, 1/4), (3/4, 1/4))).ray.1
            (mkCheck sqPoly (2, 2) ((1/4, 1/4), (3/4, 1/4))).ray.2
            s).isSome).image
        fun s =>
          (round ((castRay (mkCheck sqPoly (2, 2)
            ((1/4, 1/4), (3/4, 1/4))).ray.1
            (mkCheck sqPoly (2, 2) ((1/4, 1/4), (3/4, 1/4))).ray.2
            s).getD 0 * 1000000) : ℚ) / 1000000 :=
  ⟨by decide,
   contains_triangle_rounds_and_dedups sqPoly (1/4, 1/4) (3/4, 1/4)
     (1/2, 3/4) (2, 2) _ (by decide)⟩

/-- C5: a triangle edge that exactly matches a stored boundary segment in
either orientation is skipped without any ray casting: removing it from the
edge loop changes nothing (no debug check, no influence on the verdict),
and in `contains_triangle` such a first edge reduces the call to the loop
over the two remaining edges. -/
theorem contains_triangle_skips_boundary_edges :
    (∀ (poly : Polygon) (outside : Pt2) (pre : List Seg2) (e : Seg2)
        (post : List Seg2) (dbg : DebugInfo),
      poly.contains_segment e = true →
      containsLoop poly outside (pre ++ e :: post) dbg =
        containsLoop poly outside (pre ++ post) dbg) ∧
    (∀ (poly : Polygon) (p q c outside : Pt2) (dbg : DebugInfo),
      poly.contains_segment (p, q) = true →
      poly.contains_triangle p q c outside dbg =
        containsLoop poly outside [(q, c), (c, p)] dbg) :=
  ⟨fun poly outside pre e post dbg h =>
     containsLoop_skip_middle poly outside pre e post dbg h,
   fun poly p q c outside dbg h => by
     unfold Polygon.contains_triangle triEdges
     exact containsLoop_skip_middle poly outside [] (p, q)
       [(q, c), (c, p)] dbg h⟩

/-- Concrete run of C5 on the triangle-boundary polygon: the boundary edge
`((0,0),(1,0))` is skipped both in the middle of a loop and as the first
edge of `contains_triangle`. -/
theorem contains_triangle_skips_boundary_edges_witness :
    triPoly.contains_segment ((0, 0), (1, 0)) = true ∧
    containsLoop triPoly (5, 5)
        ([((2, 2), (3, 3))] ++ ((0, 0), (1, 0)) :: []) ⟨[]⟩ =
      containsLoop triPoly (5, 5) ([((2, 2), (3, 3))] ++ []) ⟨[]⟩ ∧
    triPoly.contains_triangle (0, 0) (1, 0) (0, 1) (5, 5) ⟨[]⟩ =
      containsLoop triPoly (5, 5) [((1, 0), (0, 1)), ((0, 1), (0, 0))]
        ⟨[]⟩ :=
  ⟨by decide,
   contains_triangle_skips_boundary_edges.1 triPoly (5, 5)
     [((2, 2), (3, 3))] ((0, 0), (1, 0)) [] ⟨[]⟩ (by decide),
   contains_triangle_skips_boundary_edges.2 triPoly (0, 0) (1, 0) (0, 1)
     (5, 5) ⟨[]⟩ (by decide)⟩

/-- C6 counterexample: the result of `contains_triangle` is NOT invariant
under the choice of outside point, even among points genuinely outside the
face's bounding box.  On the annulus face (square with a square hole), the
triangle `[(5/4,1/2), (7/4,1/2), (3/2,1/4)]` lies in the annulus below the
hole.  With outside point `(3/2,-1)` it is accepted; with outside point
`(4,3)` the first edge's midpoint ray grazes the hole's corner `(2,1)`
tangentially — the two hole segments meeting there are hit at the same
rounded parameter and deduplicate to one — yielding an even total count, so
the triangle is rejected. -/
theorem contains_triangle_outside_choice_counterexample :
    (∀ s ∈ annulusPoly.segments, inBox3 s.1 ∧ inBox3 s.2) ∧
    ¬ inBox3 (4, 3) ∧ ¬ inBox3 (3/2, -1) ∧
    (annulusPoly.contains_triangle (5/4, 1/2) (7/4, 1/2) (3/2, 1/4)
      (4, 3) ⟨[]⟩).1 = false ∧
    (annulusPoly.contains_triangle (5/4, 1/2) (7/4, 1/2) (3/2, 1/4)
      (3/2, -1) ⟨[]⟩).1 = true :=
  ⟨by decide, by decide, by decide, by decide, by decide⟩

/-- C6 (amended): the boolean result of `Polygon::contains_triangle` is
unchanged under any permutation of the triangle's three vertices.  (The
outside-point half of the original claim is refuted by the
counterexample.) -/
theorem contains_triangle_vertex_perm (poly : Polygon)
    (a b c outside : Pt2) (dbg : DebugInfo) :
    (poly.contains_triangle a b c outside dbg).1 =
        (poly.contains_triangle a c b outside dbg).1 ∧
    (poly.contains_triangle a b c outside dbg).1 =
        (poly.contains_triangle b a c outside dbg).1 ∧
    (poly.contains_triangle a b c outside dbg).1 =
        (poly.contains_triangle b c a outside dbg).1 ∧
    (poly.contains_triangle a b c outside dbg).1 =
        (poly.contains_triangle c a b outside dbg).1 ∧
    (poly.contains_triangle a b c outside dbg).1 =
        (poly.contains_triangle c b a outside dbg).1 := by
  have sab := edgeOk_swap poly outside a b
  have sbc := edgeOk_swap poly outside b c
  have sca := edgeOk_swap poly outside c a
  have sac := edgeOk_swap poly outside a c
  refine ⟨?_, ?_, ?_, ?_, ?_⟩ <;>
    (rw [Bool.eq_iff_iff, contains_triangle_fst_iff,
      contains_triangle_fst_iff]; tauto)

/-- C10: when all three edges of the triangle match stored boundary
segments (in either orientation), `contains_triangle` returns `true`
without casting a single ray, and the debug sink is returned unchanged: no
`TriangleEdgeCheck` is pushed for any edge. -/
theorem contains_triangle_all_boundary (poly : Polygon)
    (a b c outside : Pt2) (dbg : DebugInfo)
    (h1 : poly.contains_segment (a, b) = true)
    (h2 : poly.contains_segment (b, c) = true)
    (h3 : poly.contains_segment (c, a) = true) :
    poly.contains_triangle a b c outside dbg = (true, dbg) := by
  unfold Polygon.contains_triangle triEdges
  rw [containsLoop_cons_skip poly outside (a, b) _ dbg h1,
    containsLoop_cons_skip poly outside (b, c) _ dbg h2,
    containsLoop_cons_skip poly outside (c, a) _ dbg h3,
    containsLoop_nil]

/-- Concrete run of C10: the triangle whose edges are exactly the boundary
of `triPoly` is accepted with a pre-populated debug sink left untouched. -/
theorem contains_triangle_all_boundary_witness :
    triPoly.contains_segment ((0, 0), (1, 0)) = true ∧
    triPoly.contains_segment ((1, 0), (0, 1)) = true ∧
    triPoly.contains_segment ((0, 1), (0, 0)) = true ∧
    triPoly.contains_triangle (0, 0) (1, 0) (0, 1) (9, 9)
        ⟨[⟨((0, 0), (1, 1)), ∅⟩]⟩ =
      (true, ⟨[⟨((0, 0), (1, 1)), ∅⟩]⟩) :=
  ⟨by decide, by decide, by decide,
   contains_triangle_all_boundary triPoly (0, 0) (1, 0) (0, 1) (9, 9)
     ⟨[⟨((0, 0), (1, 1)), ∅⟩]⟩ (by decide) (by decide) (by decide)⟩

end ConcreteEvaluation

end Fornjot

/-! ## Lemmas about the store's deduplicating insertion -/

namespace Fornjot

theorem idxOf?_lt_length [DecidableEq α] :
    ∀ (xs : List α) (x : α) (i : ℕ), idxOf? xs x = some i →
      i < xs.length := by
  intro xs x
  induction xs with
  | nil => intro i h; simp [idxOf?] at h
  | cons y ys ih =>
    intro i h
    unfold idxOf? at h
    by_cases hy : y = x
    · rw [if_pos hy] at h
      cases h
      simp
    · rw [if_neg hy] at h
      cases hj : idxOf? ys x with
      | none => rw [hj] at h; simp at h
      | some j =>
        rw [hj] at h
        simp at h
        have := ih j hj
        simp only [List.length_cons]
        omega

theorem idxOf?_getElem [DecidableEq α] :
    ∀ (xs : List α) (x : α) (i : ℕ), idxOf? xs x = some i →
      xs[i]? = some x := by
  intro xs x
  induction xs with
  | nil => intro i h; simp [idxOf?] at h
  | cons y ys ih =>
    intro i h
    unfold idxOf? at h
    by_cases hy : y = x
    · rw [if_pos hy] at h
      cases h
      simp [hy]
    · rw [if_neg hy] at h
      cases hj : idxOf? ys x with
      | none => rw [hj] at h; simp at h
      | some j =>
        rw [hj] at h
        simp at h
        subst h
        simpa using ih j hj

theorem idxOf?_append_self [DecidableEq α] :
    ∀ (xs : List α) (x : α), idxOf? xs x = none →
      idxOf? (xs ++ [x]) x = some xs.length := by
  intro xs x
  induction xs with
  | nil => intro _; simp [idxOf?]
  | cons y ys ih =>
    intro h
    unfold idxOf? at h
    by_cases hy : y = x
    · rw [if_pos hy] at h; simp at h
    · rw [if_neg hy] at h
      have hys : idxOf? ys x = none := by
        cases hj : idxOf? ys x with
        | none => rfl
        | some j => rw [hj] at h; simp at h
      show idxOf? (y :: (ys ++ [x])) x = _
      unfold idxOf?
      rw [if_neg hy, ih hys]
      simp

theorem listGHI_snd_lt [DecidableEq α] (xs : List α) (x : α) :
    (listGHI xs x).2 < (listGHI xs x).1.length := by
  unfold listGHI
  cases h : idxOf? xs x with
  | none => simp
  | some i => simpa using idxOf?_lt_length xs x i h

theorem listGHI_getElem [DecidableEq α] (xs : List α) (x : α) :
    (listGHI xs x).1[(listGHI xs x).2]? = some x := by
  unfold listGHI
  cases h : idxOf? xs x with
  | none => simp
  | some i => simpa using idxOf?_getElem xs x i h

theorem listGHI_idem [DecidableEq α] (xs : List α) (x : α) :
    listGHI (listGHI xs x).1 x = listGHI xs x := by
  cases h : idxOf? xs x with
  | none =>
    have h2 := idxOf?_append_self xs x h
    simp [listGHI, h, h2]
  | some i => simp [listGHI, h]

theorem from_point_eq (s : Shape) (p : Pt3) :
    VertexBuilder.from_point s p =
      .ok ({ s with
              points := (listGHI s.points p).1,
              vertices :=
                (listGHI s.vertices ⟨(listGHI s.points p).2⟩).1 },
           (listGHI s.vertices ⟨(listGHI s.points p).2⟩).2) := by
  unfold VertexBuilder.from_point Shape.getHandleOrInsertPoint
    Shape.getHandleOrInsertVertex
  simp [listGHI_snd_lt s.points p]

theorem edgeBuilder_circle_eq (s : Shape) (r : ℚ) :
    EdgeBuilder.circle s r =
      .ok ({ s with
              curves :=
                (listGHI s.curves (.circle ⟨(0, 0, 0), (r, 0)⟩)).1,
              edges :=
                (listGHI s.edges
                  ⟨(listGHI s.curves (.circle ⟨(0, 0, 0), (r, 0)⟩)).2,
                   none⟩).1 },
           (listGHI s.edges
             ⟨(listGHI s.curves (.circle ⟨(0, 0, 0), (r, 0)⟩)).2,
              none⟩).2) := by
  unfold EdgeBuilder.circle Shape.insertCurve Shape.insertEdge
  have hc : (listGHI s.curves (KCurve.circle ⟨(0 : Pt3), (r, 0)⟩)).2 <
      (listGHI s.curves (KCurve.circle ⟨(0 : Pt3), (r, 0)⟩)).1.length :=
    listGHI_snd_lt _ _
  simp [Shape.verticesResolve, hc]

end Fornjot

/-! ## The claims about the builders and the store -/

namespace Fornjot

section StoreClaims

attribute [local semireducible] Rat.add Rat.mul Rat.sub Rat.inv

/-- C7: two successive `VertexBuilder::from_point` calls with value-equal
points return identical handles, and the second call reuses the stored
`Point<3>` and `Vertex` instead of inserting new ones: the store is
unchanged. -/
theorem from_point_idempotent (s : Shape) (p : Pt3) (s1 s2 : Shape)
    (h1 h2 : ℕ)
    (hc1 : VertexBuilder.from_point s p = .ok (s1, h1))
    (hc2 : VertexBuilder.from_point s1 p = .ok (s2, h2)) :
    s2 = s1 ∧ h2 = h1 := by
  rw [from_point_eq] at hc1
  simp only [Except.ok.injEq, Prod.mk.injEq] at hc1
  obtain ⟨rfl, rfl⟩ := hc1
  rw [from_point_eq] at hc2
  simp only [listGHI_idem] at hc2
  simp only [Except.ok.injEq, Prod.mk.injEq] at hc2
  exact ⟨hc2.1.symm, hc2.2.symm⟩

/-- Concrete run of C7 on the empty store with the spec's example point
`(1,2,3)`: both calls yield handle `0` and the same single-point,
single-vertex store. -/
theorem from_point_idempotent_witness :
    VertexBuilder.from_point Shape.empty (1, 2, 3) =
      .ok (⟨[(1, 2, 3)], [], [⟨0⟩], []⟩, 0) ∧
    VertexBuilder.from_point ⟨[(1, 2, 3)], [], [⟨0⟩], []⟩ (1, 2, 3) =
      .ok (⟨[(1, 2, 3)], [], [⟨0⟩], []⟩, 0) ∧
    ((⟨[(1, 2, 3)], [], [⟨0⟩], []⟩ : Shape) =
        ⟨[(1, 2, 3)], [], [⟨0⟩], []⟩ ∧ (0 : ℕ) = 0) :=
  ⟨by decide, by decide,
   from_point_idempotent Shape.empty (1, 2, 3) _ _ _ _ (by decide)
     (by decide)⟩

/-- C8: `EdgeBuilder::circle(radius)` stores a `Circle` curve with center
at the origin and radius vector `[radius, 0]`, and the returned edge
handle resolves to an `Edge` whose `vertices` field is `None` and whose
curve handle resolves to that circle. -/
theorem edgeBuilder_circle_spec (s : Shape) (r : ℚ) (s' : Shape) (he : ℕ)
    (h : EdgeBuilder.circle s r = .ok (s', he)) :
    ∃ e, s'.edges[he]? = some e ∧ e.vertices = none ∧
      s'.curves[e.curve]? = some (KCurve.circle ⟨(0, 0, 0), (r, 0)⟩) := by
  rw [edgeBuilder_circle_eq] at h
  simp only [Except.ok.injEq, Prod.mk.injEq] at h
  obtain ⟨rfl, rfl⟩ := h
  refine ⟨⟨(listGHI s.curves (.circle ⟨(0, 0, 0), (r, 0)⟩)).2, none⟩,
    ?_, rfl, ?_⟩
  · exact listGHI_getElem _ _
  · exact listGHI_getElem _ _

/-- Concrete run of C8 on the empty store with radius `2`. -/
theorem edgeBuilder_circle_spec_witness :
    EdgeBuilder.circle Shape.empty 2 =
      .ok (⟨[], [.circle ⟨(0, 0, 0), (2, 0)⟩], [], [⟨0, none⟩]⟩, 0) ∧
    ∃ e,
      (⟨[], [.circle ⟨(0, 0, 0), (2, 0)⟩], [], [⟨0, none⟩]⟩ :
        Shape).edges[(0 : ℕ)]? = some e ∧
      e.vertices = none ∧
      (⟨[], [.circle ⟨(0, 0, 0), (2, 0)⟩], [], [⟨0, none⟩]⟩ :
        Shape).curves[e.curve]? =
        some (KCurve.circle ⟨(0, 0, 0), (2, 0)⟩) :=
  ⟨by decide, edgeBuilder_circle_spec Shape.empty 2 _ 0 (by decide)⟩

/-- C9: inserting an `Edge` whose vertices reference a vertex handle that
does not resolve inside the store returns a `Structural` validation error
to the caller. -/
theorem insertEdge_dangling_vertex (s : Shape) (e : KEdge) (v1 v2 : ℕ)
    (hv : e.vertices = some (v1, v2))
    (hd : s.vertices.length ≤ v1 ∨ s.vertices.length ≤ v2) :
    s.insertEdge e = .error .structural := by
  unfold Shape.insertEdge
  rw [if_neg]
  rintro ⟨-, hres⟩
  rw [hv] at hres
  unfold Shape.verticesResolve at hres
  omega

/-- Concrete run of C9: on the empty store, an edge referencing vertex
handle `0` fails structurally. -/
theorem insertEdge_dangling_vertex_witness :
    (⟨0, some (0, 0)⟩ : KEdge).vertices = some (0, 0) ∧
    Shape.empty.vertices.length ≤ 0 ∧
    Shape.empty.insertEdge ⟨0, some (0, 0)⟩ = .error .structural :=
  ⟨rfl, by decide,
   insertEdge_dangling_vertex Shape.empty ⟨0, some (0, 0)⟩ 0 0 rfl
     (Or.inl (by decide))⟩

end StoreClaims

end Fornjot

/-! ## Lemmas about the circle coordinate transforms -/

namespace Fornjot

theorem dotR_comm {D : ℕ} (x y : PtR D) : dotR x y = dotR y x := by
  unfold dotR
  exact Finset.sum_congr rfl fun i _ => mul_comm _ _

theorem dotR_self_eq_zero_iff {D : ℕ} (a : PtR D) :
    dotR a a = 0 ↔ a = 0 := by
  unfold dotR
  constructor
  · intro h
    funext i
    have hz := (Finset.sum_eq_zero_iff_of_nonneg
      fun i _ => mul_self_nonneg (a i)).1 h i (Finset.mem_univ i)
    exact mul_self_eq_zero.1 hz
  · intro h
    rw [h]
    simp

theorem proj_coords {D : ℕ} (c : CircleR D) (θ : ℝ) :
    dotR (fun i => c.point_from_circle_coords θ i - c.center i) c.a
        = Real.cos θ * dotR c.a c.a + Real.sin θ * dotR c.b c.a ∧
    dotR (fun i => c.point_from_circle_coords θ i - c.center i) c.b
        = Real.cos θ * dotR c.a c.b + Real.sin θ * dotR c.b c.b := by
  unfold CircleR.point_from_circle_coords CircleR.vector_from_circle_coords
    dotR
  constructor <;>
  · rw [Finset.mul_sum, Finset.mul_sum, ← Finset.sum_add_distrib]
    refine Finset.sum_congr rfl fun i _ => by ring

theorem normalized_mem_Ico (A : ℝ) (h1 : -Real.pi < A) (h2 : A ≤ Real.pi) :
    (if 0 ≤ A then A else A + Real.pi * 2) ∈
      Set.Ico 0 (Real.pi * 2) := by
  have hπ := Real.pi_pos
  by_cases h : 0 ≤ A
  · rw [if_pos h]
    exact ⟨h, by linarith⟩
  · rw [if_neg h]
    exact ⟨by linarith, by linarith⟩

end Fornjot

/-! ## The claims about the circle coordinate transforms -/

namespace Fornjot

/-- C3: `point_to_circle_coords` equals the `atan2` of the point's
projection onto the circle's `(a, b)` basis, normalized into `[0, 2π)` by
adding `2π` whenever the `atan2` value is negative; the returned coordinate
always lies in `[0, 2π)`. -/
theorem point_to_circle_coords_spec {D : ℕ} (c : CircleR D) (p : PtR D) :
    c.point_to_circle_coords p =
      (if 0 ≤ atan2 (dotR (fun i => p i - c.center i) c.b / dotR c.b c.b)
              (dotR (fun i => p i - c.center i) c.a / dotR c.a c.a)
       then atan2 (dotR (fun i => p i - c.center i) c.b / dotR c.b c.b)
              (dotR (fun i => p i - c.center i) c.a / dotR c.a c.a)
       else atan2 (dotR (fun i => p i - c.center i) c.b / dotR c.b c.b)
              (dotR (fun i => p i - c.center i) c.a / dotR c.a c.a)
            + Real.pi * 2) ∧
    c.point_to_circle_coords p ∈ Set.Ico 0 (Real.pi * 2) := by
  constructor
  · rfl
  · show (if 0 ≤ atan2 _ _ then atan2 _ _ else atan2 _ _ + Real.pi * 2) ∈ _
    exact normalized_mem_Ico _ (Complex.neg_pi_lt_arg _) (Complex.arg_le_pi _)

/-- C4 counterexample: the claim's notion of a valid circle (`|a| = |b|`
and `a ⟂ b`) admits the degenerate circle with `a = b = 0`, for which the
round trip collapses: at `θ = 1 ∈ [0, 2π)` the reconstructed point is the
center and its circle coordinate is `0`, not `1` (nor anything near it). -/
theorem circle_roundtrip_counterexample :
    dotR (⟨0, 0, 0⟩ : CircleR 2).a (⟨0, 0, 0⟩ : CircleR 2).a =
      dotR (⟨0, 0, 0⟩ : CircleR 2).b (⟨0, 0, 0⟩ : CircleR 2).b ∧
    dotR (⟨0, 0, 0⟩ : CircleR 2).a (⟨0, 0, 0⟩ : CircleR 2).b = 0 ∧
    (1 : ℝ) ∈ Set.Ico 0 (Real.pi * 2) ∧
    (⟨0, 0, 0⟩ : CircleR 2).point_to_circle_coords
        ((⟨0, 0, 0⟩ : CircleR 2).point_from_circle_coords 1) ≠ 1 := by
  refine ⟨rfl, ?_, ⟨zero_le_one, ?_⟩, ?_⟩
  · unfold dotR
    simp
  · nlinarith [Real.pi_gt_three]
  · have hval : (⟨0, 0, 0⟩ : CircleR 2).point_to_circle_coords
        ((⟨0, 0, 0⟩ : CircleR 2).point_from_circle_coords 1) = 0 := by
      unfold CircleR.point_to_circle_coords CircleR.point_from_circle_coords
        CircleR.vector_from_circle_coords dotR atan2
      simp [Complex.arg_zero]
    rw [hval]
    norm_num

/-- C4 (amended): for every valid circle of nonzero radius — `|a| = |b|`,
`a ⟂ b`, and `a ≠ 0` — and every `θ ∈ [0, 2π)`, the round trip
`point_to_circle_coords (point_from_circle_coords θ)` returns `θ` exactly
(the real-arithmetic model subsumes "within floating tolerance").  The
nonzero-radius hypothesis is forced by the counterexample. -/
theorem circle_roundtrip {D : ℕ} (c : CircleR D)
    (hab : dotR c.a c.a = dotR c.b c.b)
    (hperp : dotR c.a c.b = 0)
    (ha : c.a ≠ 0)
    (θ : ℝ) (hθ : θ ∈ Set.Ico 0 (Real.pi * 2)) :
    c.point_to_circle_coords (c.point_from_circle_coords θ) = θ := by
  have hπ := Real.pi_pos
  have hra : dotR c.a c.a ≠ 0 := fun h =>
    ha ((dotR_self_eq_zero_iff c.a).1 h)
  have hrb : dotR c.b c.b ≠ 0 := by rw [← hab]; exact hra
  obtain ⟨hu, hw⟩ := proj_coords c θ
  have hu' : dotR (fun i => c.point_from_circle_coords θ i - c.center i)
      c.a / dotR c.a c.a = Real.cos θ := by
    rw [hu, dotR_comm c.b c.a, hperp, mul_zero, add_zero, mul_div_assoc,
      div_self hra, mul_one]
  have hw' : dotR (fun i => c.point_from_circle_coords θ i - c.center i)
      c.b / dotR c.b c.b = Real.sin θ := by
    rw [hw, hperp, mul_zero, zero_add, mul_div_assoc, div_self hrb,
      mul_one]
  show (if 0 ≤ atan2 _ _ then atan2 _ _ else atan2 _ _ + Real.pi * 2) = θ
  rw [hu', hw']
  unfold atan2
  by_cases hle : θ ≤ Real.pi
  · have harg :
        Complex.arg (↑(Real.cos θ) + ↑(Real.sin θ) * Complex.I) = θ := by
      rw [Complex.ofReal_cos, Complex.ofReal_sin]
      exact Complex.arg_cos_add_sin_mul_I ⟨by linarith [hθ.1], hle⟩
    rw [harg, if_pos hθ.1]
  · have hgt : Real.pi < θ := not_le.mp hle
    have hc2 : Real.cos θ = Real.cos (θ - Real.pi * 2) := by
      conv_lhs => rw [show θ = θ - Real.pi * 2 + 2 * Real.pi by ring]
      exact Real.cos_add_two_pi _
    have hs2 : Real.sin θ = Real.sin (θ - Real.pi * 2) := by
      conv_lhs => rw [show θ = θ - Real.pi * 2 + 2 * Real.pi by ring]
      exact Real.sin_add_two_pi _
    have harg :
        Complex.arg (↑(Real.cos θ) + ↑(Real.sin θ) * Complex.I) =
          θ - Real.pi * 2 := by
      rw [hc2, hs2, Complex.ofReal_cos, Complex.ofReal_sin]
      exact Complex.arg_cos_add_sin_mul_I
        ⟨by linarith [hθ.2], by linarith [hθ.2]⟩
    rw [harg, if_neg (by linarith [hθ.2])]
    ring

/-- Concrete run of C4 (amended) on the standard unit circle in the plane
at `θ = 0`. -/
theorem circle_roundtrip_witness :
    dotR (![1, 0] : PtR 2) ![1, 0] = dotR (![0, 1] : PtR 2) ![0, 1] ∧
    dotR (![1, 0] : PtR 2) ![0, 1] = 0 ∧
    (![1, 0] : PtR 2) ≠ 0 ∧
    (0 : ℝ) ∈ Set.Ico 0 (Real.pi * 2) ∧
    (⟨0, ![1, 0], ![0, 1]⟩ : CircleR 2).point_to_circle_coords
      ((⟨0, ![1, 0], ![0, 1]⟩ : CircleR 2).point_from_circle_coords 0) =
        0 :=
  ⟨by unfold dotR; simp [Fin.sum_univ_two],
   by unfold dotR; simp [Fin.sum_univ_two],
   by
     intro h
     have h0 := congrFun h 0
     simp at h0,
   ⟨le_refl 0, by positivity⟩,
   circle_roundtrip (⟨0, ![1, 0], ![0, 1]⟩ : CircleR 2)
     (by unfold dotR; simp [Fin.sum_univ_two])
     (by unfold dotR; simp [Fin.sum_univ_two])
     (by
       intro h
       have h0 := congrFun h 0
       simp at h0)
     0 ⟨le_refl 0, by positivity⟩⟩

end Fornjot
